import Mathlib

/-!
# Verification of the bomi channel-manipulation engine

Shallow embedding of the audio channel-manipulation engine found in
`src/cmplayer/videorendereritem.cpp` (second translation unit: the
`ChannelManipulation` / `ChannelLayoutMap` code).

Modelling conventions:
* `mp_speaker_id` values (indices 0..10, in the order of the `ChNames`
  table) and the bit-flag `SpeakerId` enumerators are two views of the
  single inductive `SpeakerId` below, related by `SpeakerId.mpId`
  (the index) and `SpeakerId.flag` (the power-of-two bit).
* A channel layout value is its bitmask (in the C++ source the
  `ChannelLayout` enumerator values are used directly as masks via
  `(int)layout`): we use `Nat`.  The `Default` sentinel is modelled as
  the empty mask `0` and is excluded from default derivation.
* Qt strings are modelled as `List Char`; `QString::split` with
  `KeepEmptyParts` is `splitCh`, with `SkipEmptyParts` it is `splitCh`
  followed by dropping empty fields; `QStringList::join` is `joinCh`.
-/

set_option autoImplicit false

/-- The eleven canonical speaker positions, in the order of the C++
`ChNames` table (which is also the `mp_speaker_id` order `FL..SR`). -/
inductive SpeakerId where
  | FrontLeft
  | FrontRight
  | FrontCenter
  | LowFrequency
  | BackLeft
  | BackRight
  | FrontLeftCenter
  | FrontRightCenter
  | BackCenter
  | SideLeft
  | SideRight
  deriving DecidableEq, Fintype, Repr

open SpeakerId

/-- The `mp_speaker_id` index of a speaker (position in `ChNames`). -/
def SpeakerId.mpId : SpeakerId → Nat
  | FrontLeft => 0
  | FrontRight => 1
  | FrontCenter => 2
  | LowFrequency => 3
  | BackLeft => 4
  | BackRight => 5
  | FrontLeftCenter => 6
  | FrontRightCenter => 7
  | BackCenter => 8
  | SideLeft => 9
  | SideRight => 10

/-- The bit-flag value of the `SpeakerId` enumerator (each speaker is a
distinct power of two so layouts are bitmask unions). -/
def SpeakerId.flag (s : SpeakerId) : Nat := 2 ^ s.mpId

/-- All speakers in canonical enumeration order (the order of the
`CHECK` lines in `speakersInLayout` and of the `ChNames` table). -/
def allSpeakers : List SpeakerId :=
  [FrontLeft, FrontRight, FrontCenter, LowFrequency, BackLeft, BackRight,
   FrontLeftCenter, FrontRightCenter, BackCenter, SideLeft, SideRight]

/-- A channel layout as a bitmask over speaker flags.  In the C++ source
the `ChannelLayout` enumerator values are used directly as masks. -/
abbrev ChannelLayoutMask := Nat

/-- Membership test `speaker & (int)layout` from the source. -/
def hasSpeaker (layout : ChannelLayoutMask) (s : SpeakerId) : Bool :=
  s.flag &&& layout != 0

/-- The bitmask of the `Mono` layout: only `FrontCenter`. -/
def monoMask : ChannelLayoutMask := FrontCenter.flag

/-- `speakersInLayout`: ordered list of speakers present in a layout
(canonical enumeration order, from the source). -/
def speakersInLayout (layout : ChannelLayoutMask) : List SpeakerId :=
  allSpeakers.filter (fun s => hasSpeaker layout s)

/-- A `ChannelManipulation` mix table: for each destination speaker, the
ordered list of source speakers feeding it (the `m_mix` array restricted
to the canonical range `FL..SR`; an absent entry is the empty list). -/
abbrev ChannelManipulation := SpeakerId → List SpeakerId

/-- The empty manipulation (all destinations unset). -/
def emptyMan : ChannelManipulation := fun _ => []

/-- `ChannelManipulation::set`: replace the source list of a destination. -/
def ChannelManipulation.set (m : ChannelManipulation) (dest : SpeakerId)
    (sources : List SpeakerId) : ChannelManipulation :=
  fun t => if t = dest then sources else m t

/-- `mix[d] << s`: append one source to a destination's list. -/
def addTo (m : ChannelManipulation) (d : SpeakerId) (s : SpeakerId) :
    ChannelManipulation :=
  fun t => if t = d then m t ++ [s] else m t

/-- One iteration of the inner loop of `ChannelLayoutMap::default_`:
route source speaker `s` of the source layout into the mix for
destination layout `dst`.  This follows the C++ control flow exactly,
including the short-circuit evaluation of
`if (!testAndSet(FrontCenter) || !testAndSet(FrontLeftCenter)) setLeft();`
in the `LowFrequency` case, the `dstLayout & (left | right)` test of
`testAndSet2`, the `case` fallthroughs from `BackLeft` into
`FrontLeftCenter` and from `BackRight` into `FrontRightCenter`, and the
release-build no-op of `Q_ASSERT(false)` for `FrontLeft`/`FrontRight`. -/
def applySpeaker (dst : ChannelLayoutMask) (m : ChannelManipulation)
    (s : SpeakerId) : ChannelManipulation :=
  if hasSpeaker dst s then addTo m s s
  else if dst = monoMask then addTo m FrontCenter s
  else
    match s with
    | FrontLeft => m
    | FrontRight => m
    | LowFrequency =>
      if hasSpeaker dst FrontCenter then
        let m1 := addTo m FrontCenter s
        if hasSpeaker dst FrontLeftCenter then addTo m1 FrontLeftCenter s
        else addTo m1 FrontLeft s
      else addTo m FrontLeft s
    | FrontCenter =>
      if hasSpeaker dst FrontLeftCenter || hasSpeaker dst FrontRightCenter then
        addTo (addTo m FrontLeftCenter s) FrontRightCenter s
      else addTo (addTo m FrontLeft s) FrontRight s
    | BackLeft =>
      if hasSpeaker dst BackCenter then addTo m BackCenter s
      else if hasSpeaker dst SideLeft then addTo m SideLeft s
      else addTo m FrontLeft s
    | FrontLeftCenter => addTo m FrontLeft s
    | BackRight =>
      if hasSpeaker dst BackCenter then addTo m BackCenter s
      else if hasSpeaker dst SideRight then addTo m SideRight s
      else addTo m FrontRight s
    | FrontRightCenter => addTo m FrontRight s
    | SideRight =>
      if hasSpeaker dst BackRight then addTo m BackRight s
      else addTo m FrontRight s
    | SideLeft =>
      if hasSpeaker dst BackLeft then addTo m BackLeft s
      else addTo m FrontLeft s
    | BackCenter =>
      if hasSpeaker dst BackLeft || hasSpeaker dst BackRight then
        addTo (addTo m BackLeft s) BackRight s
      else if hasSpeaker dst SideLeft || hasSpeaker dst SideRight then
        addTo (addTo m SideLeft s) SideRight s
      else addTo (addTo m FrontLeft s) FrontRight s

/-- The default manipulation derived for one ordered pair of layouts:
the body of the two outer loops of `ChannelLayoutMap::default_`. -/
def defaultManip (src dst : ChannelLayoutMask) : ChannelManipulation :=
  (speakersInLayout src).foldl (applySpeaker dst) emptyMan

/-- The list of destination slots that `applySpeaker dst _ s` appends
`s` to (a data-level restatement of the branch structure, used to reason
about `defaultManip`). -/
def targets (dst : ChannelLayoutMask) (s : SpeakerId) : List SpeakerId :=
  if hasSpeaker dst s then [s]
  else if dst = monoMask then [FrontCenter]
  else
    match s with
    | FrontLeft => []
    | FrontRight => []
    | LowFrequency =>
      if hasSpeaker dst FrontCenter then
        if hasSpeaker dst FrontLeftCenter then [FrontCenter, FrontLeftCenter]
        else [FrontCenter, FrontLeft]
      else [FrontLeft]
    | FrontCenter =>
      if hasSpeaker dst FrontLeftCenter || hasSpeaker dst FrontRightCenter then
        [FrontLeftCenter, FrontRightCenter]
      else [FrontLeft, FrontRight]
    | BackLeft =>
      if hasSpeaker dst BackCenter then [BackCenter]
      else if hasSpeaker dst SideLeft then [SideLeft]
      else [FrontLeft]
    | FrontLeftCenter => [FrontLeft]
    | BackRight =>
      if hasSpeaker dst BackCenter then [BackCenter]
      else if hasSpeaker dst SideRight then [SideRight]
      else [FrontRight]
    | FrontRightCenter => [FrontRight]
    | SideRight =>
      if hasSpeaker dst BackRight then [BackRight] else [FrontRight]
    | SideLeft =>
      if hasSpeaker dst BackLeft then [BackLeft] else [FrontLeft]
    | BackCenter =>
      if hasSpeaker dst BackLeft || hasSpeaker dst BackRight then
        [BackLeft, BackRight]
      else if hasSpeaker dst SideLeft || hasSpeaker dst SideRight then
        [SideLeft, SideRight]
      else [FrontLeft, FrontRight]

/-- `QString::split(c)` with `KeepEmptyParts` (the default): split a
character list at every occurrence of `c`, keeping empty fields; the
result is always non-empty (the empty text yields one empty field). -/
def splitCh (c : Char) : List Char → List (List Char)
  | [] => [[]]
  | x :: xs =>
    match splitCh c xs with
    | [] => [[]]
    | g :: gs => if x = c then [] :: g :: gs else (x :: g) :: gs

/-- `QStringList::join(c)`. -/
def joinCh (c : Char) : List (List Char) → List Char
  | [] => []
  | [g] => g
  | g :: gs => g ++ c :: joinCh c gs

/-- The effect of `QString::SkipEmptyParts`: drop empty fields. -/
def skipEmpty (l : List (List Char)) : List (List Char) :=
  l.filter (fun g => !g.isEmpty)

/-- The abbreviation column of the `ChNames` table. -/
def abbr : SpeakerId → List Char
  | FrontLeft => ['F', 'L']
  | FrontRight => ['F', 'R']
  | FrontCenter => ['F', 'C']
  | LowFrequency => ['L', 'F', 'E']
  | BackLeft => ['B', 'L']
  | BackRight => ['B', 'R']
  | FrontLeftCenter => ['F', 'L', 'C']
  | FrontRightCenter => ['F', 'R', 'C']
  | BackCenter => ['B', 'C']
  | SideLeft => ['S', 'L']
  | SideRight => ['S', 'R']

/-- The `nameToId` lambda of `ChannelManipulation::fromString`: first
`ChNames` entry whose abbreviation matches, `MP_SPEAKER_ID_NONE`
(modelled as `none`) otherwise. -/
def nameToId (name : List Char) : Option SpeakerId :=
  allSpeakers.find? (fun s => decide (abbr s = name))

/-- `ChannelManipulation::toString`: one `DEST!SRC1/SRC2/...` group per
destination with a non-empty source list, ascending destination id,
joined by `,`. -/
def ChannelManipulation.toString (m : ChannelManipulation) : List Char :=
  joinCh ','
    ((allSpeakers.filter (fun s => !(m s).isEmpty)).map
      (fun s => abbr s ++ '!' :: joinCh '/' ((m s).map abbr)))

/-- One iteration of the loop of `ChannelManipulation::fromString`:
process one `,`-separated group. -/
def parseGroup (man : ChannelManipulation) (one : List Char) :
    ChannelManipulation :=
  match skipEmpty (splitCh '!' one) with
  | [d, srcText] =>
    match nameToId d with
    | none => man
    | some dest =>
      let sources := (skipEmpty (splitCh '/' srcText)).filterMap nameToId
      if sources.isEmpty then man else ChannelManipulation.set man dest sources
  | _ => man

/-- `ChannelManipulation::fromString`. -/
def ChannelManipulation.fromString (text : List Char) : ChannelManipulation :=
  (splitCh ',' text).foldl parseGroup emptyMan

/-- Modelled from the spec: the channel-layout registry
(`ChannelLayoutInfo` and the `ChannelLayout` enumerators) lives in the
generated `enums.hpp`, which is not among the sources.  Per the spec the
registry enumerates named layouts (mono, stereo, 5.1, 7.1, ...) as
bitmasks over the speaker flags together with a `Default` sentinel that
is excluded from default derivation.  We model the four layouts the
spec names plus the sentinel. -/
inductive ChannelLayout where
  | Default
  | Mono
  | Stereo
  | S5_1
  | S7_1
  deriving DecidableEq, Fintype, Repr

/-- Modelled from the spec: the bitmask of each registry layout
(`Default` is the sentinel, modelled as the empty mask). -/
def ChannelLayout.mask : ChannelLayout → ChannelLayoutMask
  | .Default => 0
  | .Mono => monoMask
  | .Stereo => FrontLeft.flag ||| FrontRight.flag
  | .S5_1 =>
    FrontLeft.flag ||| FrontRight.flag ||| FrontCenter.flag |||
      LowFrequency.flag ||| BackLeft.flag ||| BackRight.flag
  | .S7_1 =>
    FrontLeft.flag ||| FrontRight.flag ||| FrontCenter.flag |||
      LowFrequency.flag ||| BackLeft.flag ||| BackRight.flag |||
      SideLeft.flag ||| SideRight.flag

/-- Modelled from the spec: `ChannelLayoutInfo::name`. -/
def ChannelLayout.name : ChannelLayout → List Char
  | .Default => ['D', 'e', 'f', 'a', 'u', 'l', 't']
  | .Mono => ['M', 'o', 'n', 'o']
  | .Stereo => ['S', 't', 'e', 'r', 'e', 'o']
  | .S5_1 => ['5', '.', '1']
  | .S7_1 => ['7', '.', '1']

/-- Modelled from the spec: `ChannelLayoutInfo::items()`, in ascending
enumerator-value order (the iteration order of a `QMap` keyed by
`ChannelLayout`). -/
def allLayouts : List ChannelLayout :=
  [.Default, .Stereo, .Mono, .S5_1, .S7_1]

/-- Modelled from the spec: `ChannelLayoutInfo::from(name)`, a lookup
returning the sentinel on a miss. -/
def ChannelLayoutInfo.fromName (name : List Char) : ChannelLayout :=
  (allLayouts.find? (fun L => decide (ChannelLayout.name L = name))).getD
    ChannelLayout.Default

/-- A `ChannelLayoutMap`: partial map from ordered layout pairs to
manipulations (`m_map`; an absent entry is `none`). -/
abbrev ChannelLayoutMap := ChannelLayout → ChannelLayout → Option ChannelManipulation

/-- The empty map. -/
def emptyLayoutMap : ChannelLayoutMap := fun _ _ => none

/-- `map(src, dst) = man`: insert/overwrite one entry. -/
def mapInsert (M : ChannelLayoutMap) (src dst : ChannelLayout)
    (man : ChannelManipulation) : ChannelLayoutMap :=
  fun s d => if s = src ∧ d = dst then some man else M s d

/-- `ChannelLayoutMap::default_()`: an entry for every ordered pair of
non-`Default` layouts, derived by `defaultManip` on the masks. -/
def ChannelLayoutMap.default_ : ChannelLayoutMap := fun S D =>
  if S ≠ ChannelLayout.Default ∧ D ≠ ChannelLayout.Default then
    some (defaultManip S.mask D.mask)
  else none

/-- All ordered layout pairs in map iteration order. -/
def layoutPairs : List (ChannelLayout × ChannelLayout) :=
  allLayouts.flatMap (fun s => allLayouts.map (fun d => (s, d)))

/-- One serialized record `SRCNAME:DSTNAME:MANIPULATIONTEXT`. -/
def recordOf (src dst : ChannelLayout) (man : ChannelManipulation) :
    List Char :=
  ChannelLayout.name src ++ ':' ::
    (ChannelLayout.name dst ++ ':' :: ChannelManipulation.toString man)

/-- `ChannelLayoutMap::toString`: `#`-joined records, one per present
entry, in map iteration order. -/
def ChannelLayoutMap.toString (M : ChannelLayoutMap) : List Char :=
  joinCh '#'
    (layoutPairs.filterMap (fun p =>
      (M p.1 p.2).map (fun man => recordOf p.1 p.2 man)))

/-- One iteration of the loop of `ChannelLayoutMap::fromString`:
process one `#`-separated record (records without exactly three
`:`-fields are skipped). -/
def parseRecord (M : ChannelLayoutMap) (one : List Char) :
    ChannelLayoutMap :=
  match skipEmpty (splitCh ':' one) with
  | [a, b, c] =>
    mapInsert M (ChannelLayoutInfo.fromName a) (ChannelLayoutInfo.fromName b)
      (ChannelManipulation.fromString c)
  | _ => M

/-- `ChannelLayoutMap::fromString`. -/
def ChannelLayoutMap.fromString (text : List Char) : ChannelLayoutMap :=
  (skipEmpty (splitCh '#' text)).foldl parseRecord emptyLayoutMap

theorem targets_nodup (dst : ChannelLayoutMask) (s : SpeakerId) :
    (targets dst s).Nodup := by
  unfold targets
  split
  · simp
  · split
    · simp
    · cases s <;> simp <;> split_ifs <;> simp

theorem addTo_apply (m : ChannelManipulation) (d s t : SpeakerId) :
    addTo m d s t = m t ++ (if t = d then [s] else []) := by
  unfold addTo
  split <;> simp [*]

theorem foldl_addTo_apply (s : SpeakerId) (ds : List SpeakerId)
    (hd : ds.Nodup) (m : ChannelManipulation) (t : SpeakerId) :
    (ds.foldl (fun acc d => addTo acc d s) m) t =
      m t ++ (if t ∈ ds then [s] else []) := by
  induction ds generalizing m with
  | nil => simp
  | cons d ds ih =>
    rw [List.foldl_cons, ih (List.Nodup.of_cons hd)]
    rw [addTo_apply]
    by_cases h : t = d
    · subst h
      have ht : t ∉ ds := (List.nodup_cons.mp hd).1
      simp [ht]
    · simp [h]

theorem applySpeaker_eq_foldl (dst : ChannelLayoutMask)
    (m : ChannelManipulation) (s : SpeakerId) :
    applySpeaker dst m s =
      (targets dst s).foldl (fun acc d => addTo acc d s) m := by
  unfold applySpeaker targets
  split
  · rfl
  · split
    · rfl
    · cases s <;> simp only [] <;> (try split_ifs) <;> rfl

theorem applySpeaker_eq_targets (dst : ChannelLayoutMask)
    (m : ChannelManipulation) (s : SpeakerId) (t : SpeakerId) :
    applySpeaker dst m s t =
      m t ++ (if t ∈ targets dst s then [s] else []) := by
  rw [applySpeaker_eq_foldl, foldl_addTo_apply s _ (targets_nodup dst s)]

theorem mem_allSpeakers (s : SpeakerId) : s ∈ allSpeakers := by
  cases s <;> simp [allSpeakers]

theorem foldl_applySpeaker_apply (D : ChannelLayoutMask)
    (l : List SpeakerId) (m : ChannelManipulation) (t : SpeakerId) :
    (l.foldl (applySpeaker D) m) t =
      m t ++ l.filter (fun s => decide (t ∈ targets D s)) := by
  induction l generalizing m with
  | nil => simp
  | cons s l ih =>
    rw [List.foldl_cons, ih, applySpeaker_eq_targets]
    by_cases h : t ∈ targets D s <;> simp [h, List.filter_cons]

/-- Pointwise description of the derived mix: destination `t` receives,
in canonical source order, the speakers of the source layout whose
routing includes slot `t`. -/
theorem defaultManip_apply (S D : ChannelLayoutMask) (t : SpeakerId) :
    defaultManip S D t =
      (speakersInLayout S).filter (fun s => decide (t ∈ targets D s)) := by
  unfold defaultManip
  rw [foldl_applySpeaker_apply]
  simp [emptyMan]

theorem mem_defaultManip (S D : ChannelLayoutMask) (s t : SpeakerId) :
    s ∈ defaultManip S D t ↔
      hasSpeaker S s = true ∧ t ∈ targets D s := by
  rw [defaultManip_apply]
  simp only [speakersInLayout, List.mem_filter, mem_allSpeakers, true_and,
    decide_eq_true_eq]

theorem filter_eq_of_nodup {t : SpeakerId} (l : List SpeakerId)
    (hl : l.Nodup) :
    l.filter (fun s => decide (t = s)) = if t ∈ l then [t] else [] := by
  induction l with
  | nil => simp
  | cons a l ih =>
    rcases List.nodup_cons.mp hl with ⟨ha, hl2⟩
    by_cases h : t = a
    · subst h
      have hnil : l.filter (fun s => decide (t = s)) = [] := by
        apply List.filter_eq_nil_iff.mpr
        intro b hb
        simp only [decide_eq_true_eq]
        intro hb2
        subst hb2
        exact ha hb
      simp [List.filter_cons, hnil]
    · simp [List.filter_cons, h, ih hl2]

theorem targets_of_has {D : ChannelLayoutMask} {s : SpeakerId}
    (h : hasSpeaker D s = true) : targets D s = [s] := by
  unfold targets
  simp [h]

theorem allSpeakers_nodup : allSpeakers.Nodup := by decide

/-- C1: the claim says a LowFrequency source absent from the destination
goes to FrontCenter if present, else FrontLeftCenter if present, else
FrontLeft, with exactly one destination receiving it.  The code's
`if (!testAndSet(FrontCenter) || !testAndSet(FrontLeftCenter)) setLeft();`
short-circuits differently: with destination `{FL,FR,FC}` (mask 7) and a
source containing LowFrequency (mask 11 = `{FL,FR,LFE}`), LowFrequency
is routed to BOTH FrontCenter and FrontLeft; and with destination
`{FL,FR,FLC}` (mask 67) and source `{LFE}` (mask 8), FrontLeftCenter is
present yet never receives it (FrontLeft does).  This theorem evaluates
the embedded code at both failing inputs. -/
theorem c1_lowfrequency_bug_eval :
    (defaultManip 11 7 FrontCenter = [LowFrequency] ∧
     defaultManip 11 7 FrontLeft = [FrontLeft, LowFrequency] ∧
     hasSpeaker 7 LowFrequency = false ∧
     hasSpeaker 7 FrontCenter = true ∧
     (7 : ChannelLayoutMask) ≠ monoMask ∧ (7 : ChannelLayoutMask) ≠ 0 ∧
     (11 : ChannelLayoutMask) ≠ 0) ∧
    (defaultManip 8 67 FrontLeftCenter = [] ∧
     defaultManip 8 67 FrontLeft = [LowFrequency] ∧
     hasSpeaker 67 FrontCenter = false ∧
     hasSpeaker 67 FrontLeftCenter = true ∧
     (67 : ChannelLayoutMask) ≠ monoMask ∧ (67 : ChannelLayoutMask) ≠ 0) := by
  decide

/-- C2 counterexample: with source layout mask 4 (`{FC}`) and
destination mask 67 (`{FL,FR,FLC}`), FrontCenter is not present in the
destination and NOT both of FrontLeftCenter/FrontRightCenter are
present, so the claim requires FrontCenter to be mapped to both
FrontLeft and FrontRight; instead the code maps it to FrontLeftCenter
and FrontRightCenter (the `testAndSet2` test is `dstLayout & (l | r)`,
i.e. at-least-one, not both). -/
theorem c2_counterexample :
    hasSpeaker 4 FrontCenter = true ∧
    hasSpeaker 67 FrontCenter = false ∧
    (67 : ChannelLayoutMask) ≠ monoMask ∧
    (67 : ChannelLayoutMask) ≠ 0 ∧ (4 : ChannelLayoutMask) ≠ 0 ∧
    ¬(hasSpeaker 67 FrontLeftCenter = true ∧
      hasSpeaker 67 FrontRightCenter = true) ∧
    ¬(FrontCenter ∈ defaultManip 4 67 FrontLeft ∧
      FrontCenter ∈ defaultManip 4 67 FrontRight) ∧
    FrontCenter ∈ defaultManip 4 67 FrontLeftCenter ∧
    FrontCenter ∈ defaultManip 4 67 FrontRightCenter := by
  decide

/-- C2 (amended): in default derivation, for every ordered pair of
non-Default layouts `(S, D)` with `D` not Mono, when a FrontCenter
source speaker of `S` is not present in `D`, it is mapped to both
FrontLeftCenter and FrontRightCenter if and only if AT LEAST ONE of
those speakers is present in `D`; otherwise it is mapped to both
FrontLeft and FrontRight. -/
theorem c2_frontcenter_amended (S D : ChannelLayoutMask)
    (hS : hasSpeaker S FrontCenter = true)
    (hD : hasSpeaker D FrontCenter = false) (hm : D ≠ monoMask) :
    ((FrontCenter ∈ defaultManip S D FrontLeftCenter ∧
      FrontCenter ∈ defaultManip S D FrontRightCenter) ↔
      (hasSpeaker D FrontLeftCenter = true ∨
       hasSpeaker D FrontRightCenter = true)) ∧
    (¬(hasSpeaker D FrontLeftCenter = true ∨
       hasSpeaker D FrontRightCenter = true) →
      FrontCenter ∈ defaultManip S D FrontLeft ∧
      FrontCenter ∈ defaultManip S D FrontRight) := by
  have htgt : targets D FrontCenter =
      if hasSpeaker D FrontLeftCenter || hasSpeaker D FrontRightCenter then
        [FrontLeftCenter, FrontRightCenter]
      else [FrontLeft, FrontRight] := by
    unfold targets
    simp [hD, hm]
  simp only [mem_defaultManip, hS, true_and, htgt]
  by_cases h1 : hasSpeaker D FrontLeftCenter = true <;>
    by_cases h2 : hasSpeaker D FrontRightCenter = true <;>
    simp [h1, h2]

/-- C2 witness: the amended statement applied at source mask 4 (`{FC}`)
and destination mask 3 (`{FL,FR}`). -/
theorem c2_frontcenter_amended_witness :
    ((FrontCenter ∈ defaultManip 4 3 FrontLeftCenter ∧
      FrontCenter ∈ defaultManip 4 3 FrontRightCenter) ↔
      (hasSpeaker 3 FrontLeftCenter = true ∨
       hasSpeaker 3 FrontRightCenter = true)) ∧
    (¬(hasSpeaker 3 FrontLeftCenter = true ∨
       hasSpeaker 3 FrontRightCenter = true) →
      FrontCenter ∈ defaultManip 4 3 FrontLeft ∧
      FrontCenter ∈ defaultManip 4 3 FrontRight) :=
  c2_frontcenter_amended 4 3 (by decide) (by decide) (by decide)

/-- C6 counterexample: the claim omits the pass-through case.  With
`S = D = {FL,FR,BL}` (mask 19) the destination contains neither
BackCenter nor SideLeft and the source contains BackLeft, yet BackLeft
is NOT mapped to FrontLeft: it passes through to BackLeft itself. -/
theorem c6_counterexample :
    hasSpeaker 19 BackLeft = true ∧
    hasSpeaker 19 BackCenter = false ∧
    hasSpeaker 19 SideLeft = false ∧
    (19 : ChannelLayoutMask) ≠ monoMask ∧
    (19 : ChannelLayoutMask) ≠ 0 ∧
    BackLeft ∉ defaultManip 19 19 FrontLeft ∧
    defaultManip 19 19 BackLeft = [BackLeft] := by
  decide

/-- C6 (amended): in default derivation, for every pair of non-Default
layouts `(S, D)` where `S` contains BackLeft and `D` contains neither
BackLeft itself nor BackCenter nor SideLeft (and `D` is not Mono), the
BackLeft source speaker is mapped to FrontLeft and nowhere else — it is
never silently dropped. -/
theorem c6_backleft_amended (S D : ChannelLayoutMask)
    (h1 : hasSpeaker S BackLeft = true)
    (h2 : hasSpeaker D BackLeft = false)
    (h3 : hasSpeaker D BackCenter = false)
    (h4 : hasSpeaker D SideLeft = false) (h5 : D ≠ monoMask) :
    BackLeft ∈ defaultManip S D FrontLeft ∧
    ∀ t : SpeakerId, t ≠ FrontLeft → BackLeft ∉ defaultManip S D t := by
  have htgt : targets D BackLeft = [FrontLeft] := by
    unfold targets
    simp [h2, h3, h4, h5]
  constructor
  · rw [mem_defaultManip, htgt]
    exact ⟨h1, by simp⟩
  · intro t ht hmem
    rw [mem_defaultManip, htgt] at hmem
    exact ht (by simpa using hmem.2)

/-- C6 witness: the amended statement applied at source mask 16
(`{BL}`) and destination mask 3 (`{FL,FR}`). -/
theorem c6_backleft_amended_witness :
    BackLeft ∈ defaultManip 16 3 FrontLeft ∧
    ∀ t : SpeakerId, t ≠ FrontLeft → BackLeft ∉ defaultManip 16 3 t :=
  c6_backleft_amended 16 3 (by decide) (by decide) (by decide) (by decide)
    (by decide)

/-- C7: for every non-Default source layout `S`, in the derived entry
for `(S, Mono)` every speaker present in `S` is collected into
FrontCenter's source list and every other destination stays empty. -/
theorem c7_mono_collapse (S : ChannelLayoutMask) (_hS : S ≠ 0) :
    (∀ s : SpeakerId, hasSpeaker S s = true →
      s ∈ defaultManip S monoMask FrontCenter) ∧
    (∀ t : SpeakerId, t ≠ FrontCenter → defaultManip S monoMask t = []) := by
  have htgt : ∀ s : SpeakerId, targets monoMask s = [FrontCenter] := by
    decide
  constructor
  · intro s h
    rw [mem_defaultManip, htgt]
    exact ⟨h, by simp⟩
  · intro t ht
    rw [defaultManip_apply]
    apply List.filter_eq_nil_iff.mpr
    intro s hs
    simp only [htgt s, List.mem_singleton, decide_eq_true_eq]
    exact ht

/-- C7 witness: the Mono collapse applied at source mask 63 (5.1). -/
theorem c7_mono_collapse_witness :
    (∀ s : SpeakerId, hasSpeaker 63 s = true →
      s ∈ defaultManip 63 monoMask FrontCenter) ∧
    (∀ t : SpeakerId, t ≠ FrontCenter → defaultManip 63 monoMask t = []) :=
  c7_mono_collapse 63 (by decide)

/-- C8: for every non-Default layout `L`, in the derived entry for
`(L, L)` every speaker present in `L` maps to itself only (its source
list is exactly the one-element list of itself) and every destination
not in `L` has an empty source list. -/
theorem c8_passthrough_identity (L : ChannelLayoutMask) (_hL : L ≠ 0) :
    (∀ t : SpeakerId, hasSpeaker L t = true → defaultManip L L t = [t]) ∧
    (∀ t : SpeakerId, hasSpeaker L t = false → defaultManip L L t = []) := by
  have key : ∀ t : SpeakerId,
      defaultManip L L t = if t ∈ speakersInLayout L then [t] else [] := by
    intro t
    rw [defaultManip_apply]
    have hcong : (speakersInLayout L).filter (fun s => decide (t ∈ targets L s)) =
        (speakersInLayout L).filter (fun s => decide (t = s)) := by
      apply List.filter_congr
      intro s hs
      have hhas : hasSpeaker L s = true := by
        have := (List.mem_filter.mp hs).2
        simpa using this
      rw [targets_of_has hhas]
      simp only [decide_eq_decide, List.mem_singleton]
    have hnd : (speakersInLayout L).Nodup := by
      unfold speakersInLayout
      exact allSpeakers_nodup.filter _
    rw [hcong, filter_eq_of_nodup _ hnd]
  constructor
  · intro t ht
    rw [key t, if_pos]
    simp [speakersInLayout, List.mem_filter, mem_allSpeakers, ht]
  · intro t ht
    rw [key t, if_neg]
    simp [speakersInLayout, List.mem_filter, ht]

/-- C8 witness: the pass-through identity applied at mask 63 (5.1). -/
theorem c8_passthrough_identity_witness :
    (∀ t : SpeakerId, hasSpeaker 63 t = true → defaultManip 63 63 t = [t]) ∧
    (∀ t : SpeakerId, hasSpeaker 63 t = false → defaultManip 63 63 t = []) :=
  c8_passthrough_identity 63 (by decide)

/-- C3 counterexample: the default map's entry for (Stereo, 5.1) leaves
destination FrontCenter (present in 5.1) with an empty source list, so
not every speaker present in the destination has a contributing
source. -/
theorem c3_counterexample :
    ChannelLayoutMap.default_ ChannelLayout.Stereo ChannelLayout.S5_1 =
      some (defaultManip (ChannelLayout.mask ChannelLayout.Stereo)
        (ChannelLayout.mask ChannelLayout.S5_1)) ∧
    hasSpeaker (ChannelLayout.mask ChannelLayout.S5_1) FrontCenter = true ∧
    defaultManip (ChannelLayout.mask ChannelLayout.Stereo)
      (ChannelLayout.mask ChannelLayout.S5_1) FrontCenter = [] := by
  decide

/-- C3 (amended): for every ordered pair of non-Default layouts the map
returned by `default_()` contains an entry, and in it every speaker
present in the SOURCE layout contributes to at least one destination
speaker present in the destination layout (no source speaker is
silently dropped). -/
theorem c3_coverage_amended :
    ∀ S D : ChannelLayout,
      S ≠ ChannelLayout.Default → D ≠ ChannelLayout.Default →
      ChannelLayoutMap.default_ S D =
        some (defaultManip S.mask D.mask) ∧
      ∀ s : SpeakerId, hasSpeaker S.mask s = true →
        ∃ d : SpeakerId, hasSpeaker D.mask d = true ∧
          s ∈ defaultManip S.mask D.mask d := by
  decide

/-- C3 witness: the amended coverage applied at (Stereo, Mono). -/
theorem c3_coverage_amended_witness :
    ChannelLayoutMap.default_ ChannelLayout.Stereo ChannelLayout.Mono =
      some (defaultManip ChannelLayout.Stereo.mask ChannelLayout.Mono.mask) ∧
    ∀ s : SpeakerId, hasSpeaker ChannelLayout.Stereo.mask s = true →
      ∃ d : SpeakerId, hasSpeaker ChannelLayout.Mono.mask d = true ∧
        s ∈ defaultManip ChannelLayout.Stereo.mask ChannelLayout.Mono.mask d :=
  c3_coverage_amended ChannelLayout.Stereo ChannelLayout.Mono (by decide)
    (by decide)

theorem splitCh_cons (c x : Char) (xs : List Char) :
    splitCh c (x :: xs) =
      match splitCh c xs with
      | [] => [[]]
      | g :: gs => if x = c then [] :: g :: gs else (x :: g) :: gs := rfl

theorem splitCh_ne_nil (c : Char) (l : List Char) : splitCh c l ≠ [] := by
  induction l with
  | nil => simp [splitCh]
  | cons x xs ih =>
    rw [splitCh_cons]
    rcases h : splitCh c xs with _ | ⟨g, gs⟩
    · simp
    · by_cases hx : x = c <;> simp [hx]

theorem splitCh_nosep (c : Char) (g : List Char) (hg : ∀ x ∈ g, x ≠ c) :
    splitCh c g = [g] := by
  induction g with
  | nil => rfl
  | cons x xs ih =>
    rw [splitCh_cons, ih (fun y hy => hg y (List.mem_cons_of_mem x hy))]
    simp [hg x (List.mem_cons_self x xs)]

theorem splitCh_sep_append (c : Char) (g rest : List Char)
    (hg : ∀ x ∈ g, x ≠ c) :
    splitCh c (g ++ c :: rest) = g :: splitCh c rest := by
  induction g with
  | nil =>
    rcases h : splitCh c rest with _ | ⟨g0, gs⟩
    · exact absurd h (splitCh_ne_nil c rest)
    · simp [splitCh_cons, h]
  | cons x xs ih =>
    have hx : x ≠ c := hg x (List.mem_cons_self x xs)
    rw [List.cons_append, splitCh_cons,
      ih (fun y hy => hg y (List.mem_cons_of_mem x hy))]
    simp [hx]

theorem splitCh_joinCh (c : Char) (gs : List (List Char)) (hne : gs ≠ [])
    (h : ∀ g ∈ gs, ∀ x ∈ g, x ≠ c) :
    splitCh c (joinCh c gs) = gs := by
  induction gs with
  | nil => exact absurd rfl hne
  | cons g gs ih =>
    rcases gs with _ | ⟨g2, gs2⟩
    · exact splitCh_nosep c g (h g (by simp))
    · rw [show joinCh c (g :: g2 :: gs2) = g ++ c :: joinCh c (g2 :: gs2)
        from rfl]
      rw [splitCh_sep_append c g _ (h g (by simp))]
      rw [ih (by simp) (fun g0 hg0 => h g0 (List.mem_cons_of_mem g hg0))]

theorem mem_joinCh {c x : Char} {gs : List (List Char)}
    (hx : x ∈ joinCh c gs) : x = c ∨ ∃ g ∈ gs, x ∈ g := by
  induction gs with
  | nil => simp [joinCh] at hx
  | cons g gs ih =>
    rcases gs with _ | ⟨g2, gs2⟩
    · exact Or.inr ⟨g, by simp, hx⟩
    · rw [show joinCh c (g :: g2 :: gs2) = g ++ c :: joinCh c (g2 :: gs2)
        from rfl] at hx
      rcases List.mem_append.mp hx with h1 | h2
      · exact Or.inr ⟨g, by simp, h1⟩
      · rcases List.mem_cons.mp h2 with h3 | h4
        · exact Or.inl h3
        · rcases ih h4 with h5 | ⟨g0, hg0, hxg0⟩
          · exact Or.inl h5
          · exact Or.inr ⟨g0, List.mem_cons_of_mem g hg0, hxg0⟩

theorem joinCh_ne_nil (c : Char) (g : List Char) (gs : List (List Char))
    (hg : g ≠ []) : joinCh c (g :: gs) ≠ [] := by
  rcases gs with _ | ⟨g2, gs2⟩
  · simpa [joinCh]
  · rw [show joinCh c (g :: g2 :: gs2) = g ++ c :: joinCh c (g2 :: gs2)
      from rfl]
    simp

theorem abbr_ne_nil : ∀ s : SpeakerId, abbr s ≠ [] := by decide

theorem abbr_chars : ∀ s : SpeakerId, ∀ x ∈ abbr s,
    x ≠ ',' ∧ x ≠ '!' ∧ x ≠ '/' ∧ x ≠ ':' ∧ x ≠ '#' := by decide

theorem nameToId_abbr : ∀ s : SpeakerId, nameToId (abbr s) = some s := by
  decide

theorem filterMap_nameToId_abbr (l : List SpeakerId) :
    (l.map abbr).filterMap nameToId = l := by
  induction l with
  | nil => rfl
  | cons s l ih => simp [List.filterMap_cons, nameToId_abbr, ih]

theorem srcText_chars (m : ChannelManipulation) (s : SpeakerId) :
    ∀ x ∈ joinCh '/' ((m s).map abbr), x ≠ '!' ∧ x ≠ ',' ∧ x ≠ ':' ∧ x ≠ '#' := by
  intro x hx
  rcases mem_joinCh hx with h | ⟨g, hg, hxg⟩
  · subst h
    decide
  · rcases List.mem_map.mp hg with ⟨s2, _, rfl⟩
    have h2 := abbr_chars s2 x hxg
    exact ⟨h2.2.1, h2.1, h2.2.2.2.1, h2.2.2.2.2⟩

theorem group_chars (m : ChannelManipulation) (s : SpeakerId) :
    ∀ x ∈ abbr s ++ '!' :: joinCh '/' ((m s).map abbr),
      x ≠ ',' ∧ x ≠ ':' ∧ x ≠ '#' := by
  intro x hx
  rcases List.mem_append.mp hx with h1 | h2
  · have h := abbr_chars s x h1
    exact ⟨h.1, h.2.2.2.1, h.2.2.2.2⟩
  · rcases List.mem_cons.mp h2 with h3 | h4
    · subst h3
      decide
    · have h := srcText_chars m s x h4
      exact ⟨h.2.1, h.2.2.1, h.2.2.2⟩

theorem parseGroup_wellformed (man m : ChannelManipulation) (s : SpeakerId)
    (hne : m s ≠ []) :
    parseGroup man (abbr s ++ '!' :: joinCh '/' ((m s).map abbr)) =
      ChannelManipulation.set man s (m s) := by
  have hmap : (m s).map abbr ≠ [] := by
    rcases hms : m s with _ | ⟨s0, rest⟩
    · exact absurd hms hne
    · simp
  have h3 : joinCh '/' ((m s).map abbr) ≠ [] := by
    rcases hms : m s with _ | ⟨s0, rest⟩
    · exact absurd hms hne
    · rw [List.map_cons]
      exact joinCh_ne_nil _ _ _ (abbr_ne_nil s0)
  have h1 : splitCh '!' (abbr s ++ '!' :: joinCh '/' ((m s).map abbr)) =
      abbr s :: splitCh '!' (joinCh '/' ((m s).map abbr)) :=
    splitCh_sep_append '!' _ _ (fun x hx => (abbr_chars s x hx).2.1)
  have h2 : splitCh '!' (joinCh '/' ((m s).map abbr)) =
      [joinCh '/' ((m s).map abbr)] :=
    splitCh_nosep _ _ (fun x hx => (srcText_chars m s x hx).1)
  have h4 : skipEmpty (splitCh '!'
      (abbr s ++ '!' :: joinCh '/' ((m s).map abbr))) =
      [abbr s, joinCh '/' ((m s).map abbr)] := by
    rw [h1, h2]
    unfold skipEmpty
    rw [List.filter_cons, List.filter_cons]
    simp [abbr_ne_nil s, h3]
  have h5 : splitCh '/' (joinCh '/' ((m s).map abbr)) = (m s).map abbr := by
    apply splitCh_joinCh _ _ hmap
    intro g hg x hx
    rcases List.mem_map.mp hg with ⟨s2, _, rfl⟩
    exact (abbr_chars s2 x hx).2.2.1
  have h6 : skipEmpty ((m s).map abbr) = (m s).map abbr := by
    apply List.filter_eq_self.mpr
    intro g hg
    rcases List.mem_map.mp hg with ⟨s2, _, rfl⟩
    simp [abbr_ne_nil s2]
  unfold parseGroup
  rw [h4]
  simp only [nameToId_abbr]
  rw [h5, h6, filterMap_nameToId_abbr]
  simp [hne]

theorem foldl_parseGroup_groups (m : ChannelManipulation)
    (L : List SpeakerId) :
    ∀ acc : ChannelManipulation, (∀ s ∈ L, m s ≠ []) →
      (L.map (fun s => abbr s ++ '!' :: joinCh '/' ((m s).map abbr))).foldl
          parseGroup acc =
        fun t => if t ∈ L then m t else acc t := by
  induction L with
  | nil =>
    intro acc _
    funext t
    simp
  | cons s L ih =>
    intro acc h
    rw [List.map_cons, List.foldl_cons,
      parseGroup_wellformed acc m s (h s (List.mem_cons_self s L)),
      ih _ (fun s2 hs2 => h s2 (List.mem_cons_of_mem s hs2))]
    funext t
    by_cases htL : t ∈ L
    · simp [htL, List.mem_cons]
    · by_cases hts : t = s
      · subst hts
        simp [htL, ChannelManipulation.set]
      · simp [htL, hts, ChannelManipulation.set, List.mem_cons]

/-- Core round-trip property of the manipulation serialization. -/
theorem man_fromString_toString (m : ChannelManipulation) :
    ChannelManipulation.fromString (ChannelManipulation.toString m) = m := by
  rcases hL : allSpeakers.filter (fun s => !(m s).isEmpty) with _ | ⟨s0, Ltl⟩
  · have hts : ChannelManipulation.toString m = [] := by
      unfold ChannelManipulation.toString
      rw [hL]
      rfl
    rw [hts]
    have hfs : ChannelManipulation.fromString ([] : List Char) = emptyMan :=
      rfl
    rw [hfs]
    funext t
    have ht := List.filter_eq_nil_iff.mp hL t (mem_allSpeakers t)
    simp only [Bool.not_eq_true', Bool.not_eq_false] at ht
    simp only [emptyMan]
    exact (List.isEmpty_iff.mp ht).symm
  · have hnonempty : ∀ s ∈ s0 :: Ltl, m s ≠ [] := by
      intro s hs
      rw [← hL] at hs
      have := (List.mem_filter.mp hs).2
      simpa using this
    have hsplit : splitCh ',' (ChannelManipulation.toString m) =
        (s0 :: Ltl).map
          (fun s => abbr s ++ '!' :: joinCh '/' ((m s).map abbr)) := by
      unfold ChannelManipulation.toString
      rw [hL]
      apply splitCh_joinCh _ _ (by simp)
      intro g hg x hx
      rcases List.mem_map.mp hg with ⟨s2, _, rfl⟩
      exact (group_chars m s2 x hx).1
    unfold ChannelManipulation.fromString
    rw [hsplit, foldl_parseGroup_groups m _ emptyMan hnonempty]
    funext t
    by_cases ht : t ∈ s0 :: Ltl
    · simp [ht]
    · have ht2 : m t = [] := by
        rw [← hL] at ht
        have hall := mem_allSpeakers t
        by_contra hne
        exact ht (List.mem_filter.mpr ⟨hall, by simpa using hne⟩)
      simp [ht, ht2, emptyMan]

theorem layoutName_ne_nil : ∀ L : ChannelLayout, ChannelLayout.name L ≠ [] := by
  decide

theorem layoutName_chars : ∀ L : ChannelLayout, ∀ x ∈ ChannelLayout.name L,
    x ≠ '#' ∧ x ≠ ':' := by decide

theorem fromName_name : ∀ L : ChannelLayout,
    ChannelLayoutInfo.fromName (ChannelLayout.name L) = L := by decide

theorem mem_layoutPairs : ∀ p : ChannelLayout × ChannelLayout,
    p ∈ layoutPairs := by decide

theorem manToString_chars (m : ChannelManipulation) :
    ∀ x ∈ ChannelManipulation.toString m, x ≠ ':' ∧ x ≠ '#' := by
  intro x hx
  unfold ChannelManipulation.toString at hx
  rcases mem_joinCh hx with h | ⟨g, hg, hxg⟩
  · subst h
    decide
  · rcases List.mem_map.mp hg with ⟨s2, _, rfl⟩
    have h := group_chars m s2 x hxg
    exact ⟨h.2.1, h.2.2⟩

theorem recordOf_chars (s d : ChannelLayout) (man : ChannelManipulation) :
    ∀ x ∈ recordOf s d man, x ≠ '#' := by
  intro x hx
  unfold recordOf at hx
  rcases List.mem_append.mp hx with h1 | h2
  · exact (layoutName_chars s x h1).1
  · rcases List.mem_cons.mp h2 with h3 | h4
    · subst h3
      decide
    · rcases List.mem_append.mp h4 with h5 | h6
      · exact (layoutName_chars d x h5).1
      · rcases List.mem_cons.mp h6 with h7 | h8
        · subst h7
          decide
        · exact (manToString_chars man x h8).2

theorem recordOf_ne_nil (s d : ChannelLayout) (man : ChannelManipulation) :
    recordOf s d man ≠ [] := by
  unfold recordOf
  intro h
  rcases List.append_eq_nil.mp h with ⟨h1, -⟩
  exact layoutName_ne_nil s h1

theorem parseRecord_record (acc : ChannelLayoutMap) (s d : ChannelLayout)
    (man : ChannelManipulation)
    (hne : ChannelManipulation.toString man ≠ []) :
    parseRecord acc (recordOf s d man) = mapInsert acc s d man := by
  have h1 : splitCh ':' (recordOf s d man) =
      ChannelLayout.name s :: ChannelLayout.name d ::
        [ChannelManipulation.toString man] := by
    unfold recordOf
    rw [splitCh_sep_append ':' _ _ (fun x hx => (layoutName_chars s x hx).2),
      splitCh_sep_append ':' _ _ (fun x hx => (layoutName_chars d x hx).2),
      splitCh_nosep _ _ (fun x hx => (manToString_chars man x hx).1)]
  have h4 : skipEmpty (splitCh ':' (recordOf s d man)) =
      [ChannelLayout.name s, ChannelLayout.name d,
       ChannelManipulation.toString man] := by
    rw [h1]
    unfold skipEmpty
    rw [List.filter_cons, List.filter_cons, List.filter_cons]
    simp [layoutName_ne_nil s, layoutName_ne_nil d, hne]
  unfold parseRecord
  rw [h4]
  simp only [fromName_name, man_fromString_toString]

theorem foldl_parseRecord_records (M : ChannelLayoutMap)
    (P : List (ChannelLayout × ChannelLayout)) :
    ∀ acc : ChannelLayoutMap,
      (∀ p ∈ P, ∀ man, M p.1 p.2 = some man →
        ChannelManipulation.toString man ≠ []) →
      (P.filterMap (fun p =>
          (M p.1 p.2).map (fun man => recordOf p.1 p.2 man))).foldl
        parseRecord acc =
        fun s d => if (s, d) ∈ P ∧ (M s d).isSome then M s d else acc s d := by
  induction P with
  | nil =>
    intro acc _
    funext s d
    simp
  | cons p P ih =>
    intro acc h
    rw [List.filterMap_cons]
    rcases hM : M p.1 p.2 with _ | man
    · simp only [Option.map_none']
      rw [ih acc (fun q hq => h q (List.mem_cons_of_mem p hq))]
      funext s d
      by_cases hPm : (s, d) ∈ P ∧ (M s d).isSome
      · simp [hPm, List.mem_cons, hPm.1, hPm.2]
      · by_cases hp : (s, d) = p
        · have hnone : M s d = none := by
            rw [show s = p.1 from by rw [← hp], show d = p.2 from by rw [← hp]]
            exact hM
          simp [hPm, hnone]
        · simp [hPm, hp, List.mem_cons]
    · simp only [Option.map_some']
      rw [List.foldl_cons,
        parseRecord_record acc p.1 p.2 man (h p (List.mem_cons_self p P) man hM),
        ih _ (fun q hq => h q (List.mem_cons_of_mem p hq))]
      funext s d
      by_cases hPm : (s, d) ∈ P ∧ (M s d).isSome
      · simp [hPm, List.mem_cons, hPm.1, hPm.2]
      · by_cases hp : (s, d) = p
        · have hs : s = p.1 := by rw [← hp]
          have hd : d = p.2 := by rw [← hp]
          subst hs
          subst hd
          simp [hPm, mapInsert, hM, List.mem_cons]
        · have hps : ¬(s = p.1 ∧ d = p.2) := by
            intro hand
            exact hp (Prod.ext hand.1 hand.2)
          simp [hPm, hp, List.mem_cons, mapInsert, hps]

/-- C4: for every `ChannelManipulation` (destinations and sources are,
by construction of the mix table, within the canonical range
`FrontLeft..SideRight`), `fromString (toString m) = m`; in particular
`ChannelManipulation::fromString("FC!FL/FR").toString() = "FC!FL/FR"`. -/
theorem c4_manipulation_roundtrip :
    (∀ m : ChannelManipulation,
      ChannelManipulation.fromString (ChannelManipulation.toString m) = m) ∧
    ChannelManipulation.toString (ChannelManipulation.fromString
        ['F', 'C', '!', 'F', 'L', '/', 'F', 'R']) =
      ['F', 'C', '!', 'F', 'L', '/', 'F', 'R'] :=
  ⟨man_fromString_toString, by decide⟩

/-- C5 counterexample: a map with a single entry whose manipulation is
empty does not survive the round trip.  The entry serializes to the
record `Mono:Mono:`, whose `:`-split with `SkipEmptyParts` has only two
fields, so `fromString` skips it and the resulting map has no entry for
(Mono, Mono) while the original has one. -/
theorem c5_counterexample :
    ChannelLayoutMap.fromString (ChannelLayoutMap.toString
        (mapInsert emptyLayoutMap ChannelLayout.Mono ChannelLayout.Mono
          emptyMan)) ≠
      mapInsert emptyLayoutMap ChannelLayout.Mono ChannelLayout.Mono
        emptyMan := by
  decide

/-- C5 (amended): for every `ChannelLayoutMap` all of whose entries have
a manipulation with at least one non-empty source list (a non-empty
serialized text), `fromString (toString M)` has exactly the same
`(src, dst)` entries as `M`. -/
theorem c5_map_roundtrip_amended (M : ChannelLayoutMap)
    (h : ∀ s d : ChannelLayout,
      Option.all (fun man => !(ChannelManipulation.toString man).isEmpty)
        (M s d) = true) :
    ChannelLayoutMap.fromString (ChannelLayoutMap.toString M) = M := by
  have h2 : ∀ p : ChannelLayout × ChannelLayout, ∀ man,
      M p.1 p.2 = some man → ChannelManipulation.toString man ≠ [] := by
    intro p man hm
    have hall := h p.1 p.2
    rw [hm] at hall
    simpa using hall
  rcases hrec : layoutPairs.filterMap (fun p =>
      (M p.1 p.2).map (fun man => recordOf p.1 p.2 man)) with _ | ⟨r0, rs⟩
  · have hM : ∀ s d : ChannelLayout, M s d = none := by
      intro s d
      rcases hsd : M s d with _ | man
      · rfl
      · exfalso
        have hmem := mem_layoutPairs (s, d)
        have hnone := List.filterMap_eq_nil_iff.mp hrec (s, d) hmem
        rw [hsd] at hnone
        simp at hnone
    have hts : ChannelLayoutMap.toString M = [] := by
      unfold ChannelLayoutMap.toString
      rw [hrec]
      rfl
    rw [hts]
    have hfs : ChannelLayoutMap.fromString ([] : List Char) =
        emptyLayoutMap := rfl
    rw [hfs]
    funext s d
    rw [hM s d]
    rfl
  · have hsplit : splitCh '#' (ChannelLayoutMap.toString M) = r0 :: rs := by
      unfold ChannelLayoutMap.toString
      rw [hrec]
      apply splitCh_joinCh _ _ (by simp)
      intro g hg x hx
      rw [← hrec] at hg
      rcases List.mem_filterMap.mp hg with ⟨p, _, hfp⟩
      rcases hMp : M p.1 p.2 with _ | man
      · rw [hMp] at hfp
        simp at hfp
      · rw [hMp] at hfp
        obtain rfl : recordOf p.1 p.2 man = g := by simpa using hfp
        exact recordOf_chars p.1 p.2 man x hx
    have hskip : skipEmpty (r0 :: rs) = r0 :: rs := by
      apply List.filter_eq_self.mpr
      intro g hg
      rw [← hrec] at hg
      rcases List.mem_filterMap.mp hg with ⟨p, _, hfp⟩
      rcases hMp : M p.1 p.2 with _ | man
      · rw [hMp] at hfp
        simp at hfp
      · rw [hMp] at hfp
        obtain rfl : recordOf p.1 p.2 man = g := by simpa using hfp
        simp [recordOf_ne_nil]
    unfold ChannelLayoutMap.fromString
    rw [hsplit, hskip, ← hrec,
      foldl_parseRecord_records M layoutPairs emptyLayoutMap
        (fun p _ => h2 p)]
    funext s d
    by_cases hsome : (M s d).isSome
    · simp [mem_layoutPairs (s, d), hsome]
    · have hnone : M s d = none := Option.not_isSome_iff_eq_none.mp hsome
      simp [hsome, hnone, emptyLayoutMap]

/-- C5 witness: the amended round trip applied to a one-entry map whose
manipulation has a non-empty source list. -/
theorem c5_map_roundtrip_amended_witness :
    ChannelLayoutMap.fromString (ChannelLayoutMap.toString
        (mapInsert emptyLayoutMap ChannelLayout.Mono ChannelLayout.Stereo
          (ChannelManipulation.set emptyMan FrontCenter [FrontLeft]))) =
      mapInsert emptyLayoutMap ChannelLayout.Mono ChannelLayout.Stereo
        (ChannelManipulation.set emptyMan FrontCenter [FrontLeft]) :=
  c5_map_roundtrip_amended _ (by decide)

theorem parseGroup_two (man : ChannelManipulation) (g a b : List Char)
    (hsp : skipEmpty (splitCh '!' g) = [a, b]) :
    parseGroup man g =
      match nameToId a with
      | none => man
      | some dest =>
        let sources := (skipEmpty (splitCh '/' b)).filterMap nameToId
        if sources.isEmpty then man
        else ChannelManipulation.set man dest sources := by
  unfold parseGroup
  rw [hsp]

theorem parseGroup_skip_len (man : ChannelManipulation) (g : List Char)
    (hlen : (skipEmpty (splitCh '!' g)).length ≠ 2) :
    parseGroup man g = man := by
  rcases hsp : skipEmpty (splitCh '!' g) with _ | ⟨a, _ | ⟨b, _ | ⟨e, tl⟩⟩⟩
  · unfold parseGroup
    rw [hsp]
  · unfold parseGroup
    rw [hsp]
  · exact absurd (by rw [hsp]; rfl) hlen
  · unfold parseGroup
    rw [hsp]

theorem parseGroup_skip_unknown (man : ChannelManipulation)
    (g a b : List Char) (hsp : skipEmpty (splitCh '!' g) = [a, b])
    (hname : nameToId a = none) : parseGroup man g = man := by
  rw [parseGroup_two man g a b hsp, hname]

theorem parseGroup_skip_nosources (man : ChannelManipulation)
    (g a b : List Char) (d : SpeakerId)
    (hsp : skipEmpty (splitCh '!' g) = [a, b])
    (hname : nameToId a = some d)
    (hsrc : (skipEmpty (splitCh '/' b)).filterMap nameToId = []) :
    parseGroup man g = man := by
  rw [parseGroup_two man g a b hsp, hname]
  simp [hsrc]

theorem parseGroup_preserves_or_nonempty (man : ChannelManipulation)
    (g : List Char) (t : SpeakerId) :
    (parseGroup man g) t = man t ∨ (parseGroup man g) t ≠ [] := by
  by_cases hlen : (skipEmpty (splitCh '!' g)).length = 2
  · rcases hsp : skipEmpty (splitCh '!' g) with _ | ⟨a, _ | ⟨b, _ | ⟨e, tl⟩⟩⟩
    · rw [hsp] at hlen
      simp at hlen
    · rw [hsp] at hlen
      simp at hlen
    · rw [parseGroup_two man g a b hsp]
      rcases hname : nameToId a with _ | dest
      · exact Or.inl rfl
      · by_cases hemp :
            ((skipEmpty (splitCh '/' b)).filterMap nameToId).isEmpty
        · exact Or.inl (by simp [hemp])
        · by_cases ht : t = dest
          · refine Or.inr ?_
            have hne : (skipEmpty (splitCh '/' b)).filterMap nameToId ≠ [] :=
              fun h0 => hemp (by rw [h0]; rfl)
            simpa [hemp, ChannelManipulation.set, ht] using hne
          · exact Or.inl (by simp [hemp, ChannelManipulation.set, ht])
    · rw [hsp] at hlen
      simp at hlen
  · exact Or.inl (by rw [parseGroup_skip_len man g hlen])

/-- C9: `fromString("FL!XX,FC!FL")` yields only the FC entry (sources
`[FrontLeft]`); in general a group without exactly two `!`-fields, or
with an unknown destination abbreviation, is skipped while the rest of
the groups still parse. -/
theorem c9_lenient_parse :
    ChannelManipulation.fromString
        ['F', 'L', '!', 'X', 'X', ',', 'F', 'C', '!', 'F', 'L'] =
      ChannelManipulation.set emptyMan FrontCenter [FrontLeft] ∧
    (∀ (man : ChannelManipulation) (g : List Char),
      (skipEmpty (splitCh '!' g)).length ≠ 2 → parseGroup man g = man) ∧
    (∀ (man : ChannelManipulation) (g a b : List Char),
      skipEmpty (splitCh '!' g) = [a, b] → nameToId a = none →
      parseGroup man g = man) := by
  refine ⟨by decide, ?_, ?_⟩
  · exact parseGroup_skip_len
  · exact parseGroup_skip_unknown

/-- C9 witness: the two skip rules applied to the concrete malformed
groups `FL` (one field) and `XX!FL` (unknown destination). -/
theorem c9_lenient_parse_witness :
    parseGroup emptyMan ['F', 'L'] = emptyMan ∧
    parseGroup emptyMan ['X', 'X', '!', 'F', 'L'] = emptyMan :=
  ⟨c9_lenient_parse.2.1 emptyMan ['F', 'L'] (by decide),
   c9_lenient_parse.2.2 emptyMan ['X', 'X', '!', 'F', 'L'] ['X', 'X']
     ['F', 'L'] (by decide) (by decide)⟩

/-- C10: `fromString` never creates a destination entry with an empty
source list: a group with a recognized destination abbreviation but no
recognized source (all names unknown, or an empty source field after
splitting on `/`) is dropped whole, so each destination either keeps
its previous sources or ends up with a non-empty list; concretely
`FC!XX/YY` and `FC!//` produce the empty manipulation. -/
theorem c10_no_empty_entry :
    (∀ (man : ChannelManipulation) (g a b : List Char) (d : SpeakerId),
      skipEmpty (splitCh '!' g) = [a, b] → nameToId a = some d →
      (skipEmpty (splitCh '/' b)).filterMap nameToId = [] →
      parseGroup man g = man) ∧
    (∀ (man : ChannelManipulation) (g : List Char) (t : SpeakerId),
      (parseGroup man g) t = man t ∨ (parseGroup man g) t ≠ []) ∧
    ChannelManipulation.fromString
        ['F', 'C', '!', 'X', 'X', '/', 'Y', 'Y'] = emptyMan ∧
    ChannelManipulation.fromString ['F', 'C', '!', '/', '/'] = emptyMan := by
  refine ⟨?_, ?_, by decide, by decide⟩
  · exact parseGroup_skip_nosources
  · exact parseGroup_preserves_or_nonempty

/-- C10 witness: the drop rule applied to the concrete group `FC!XX`
(recognized destination, no recognized source). -/
theorem c10_no_empty_entry_witness :
    parseGroup emptyMan ['F', 'C', '!', 'X', 'X'] = emptyMan :=
  c10_no_empty_entry.1 emptyMan ['F', 'C', '!', 'X', 'X'] ['F', 'C']
    ['X', 'X'] FrontCenter (by decide) (by decide) (by decide)
